import Mathlib

/-!
Verification development for the email-to-pull-request webhook pipeline
(`src/api/webhook.py`).  The Python functions relevant to the frozen claims
are shallowly embedded below: pure string manipulation is translated into
executable Lean functions over `String` / `List Char`, and every HTTP call
to a collaborator (GitHub hosting API, Postmark email API) is replaced by a
lookup into an explicit environment structure, with the issued requests
recorded in an action trace.
-/

set_option maxRecDepth 4096

/-! ## Python-flavoured string primitives

The source manipulates Python `str` values with `split`, `replace`,
`strip`, `lower`, `startswith`, `endswith` and substring tests.  These are
reimplemented here on `List Char` with Python semantics, structurally
recursive so that concrete instances reduce inside `decide` / `rfl`.
-/

/-- Python `sep.split` semantics for a one-character separator:
`"".split(c) = [""]`, separators are not collapsed. -/
def splitOnChar (sep : Char) : List Char → List (List Char)
  | [] => [[]]
  | c :: rest =>
    if c = sep then
      [] :: splitOnChar sep rest
    else
      match splitOnChar sep rest with
      | h :: t => (c :: h) :: t
      | [] => [[c]]

/-- Python `s.split('\n')` on a `String`, returning `String` lines. -/
def pySplitNl (s : String) : List String :=
  (splitOnChar '\n' s.data).map String.mk

/-- Python `s.split('/')`. -/
def pySplitSlash (s : String) : List String :=
  (splitOnChar '/' s.data).map String.mk

/-- Characters treated as whitespace by Python `str.strip` and `\s`. -/
def pyIsSpace (c : Char) : Bool :=
  c = ' ' || c = '\t' || c = '\n' || c = '\r' || c = '\x0b' || c = '\x0c'

/-- Python `s.strip()` (whitespace from both ends). -/
def pyStrip (s : String) : String :=
  String.mk ((((s.data.dropWhile pyIsSpace).reverse).dropWhile pyIsSpace).reverse)

/-- Python `s.lower()` (ASCII fragment, which covers every comparison made
by the source). -/
def pyLower (s : String) : String :=
  String.mk (s.data.map Char.toLower)

/-- Python `needle in hay` substring test. -/
def listIsInfix (needle : List Char) : List Char → Bool
  | [] => needle.isEmpty
  | c :: rest => needle.isPrefixOf (c :: rest) || listIsInfix needle rest

/-- Python `needle in hay` on `String`. -/
def strContains (hay needle : String) : Bool :=
  listIsInfix needle.data hay.data

/-- Python `s.startswith(pre)`. -/
def startsWithS (s pre : String) : Bool :=
  pre.data.isPrefixOf s.data

/-- Python `s.endswith(suf)`. -/
def endsWithS (s suf : String) : Bool :=
  suf.data.reverse.isPrefixOf s.data.reverse

/-- One fuel-indexed step of Python `str.replace`: replaces non-overlapping
occurrences of `needle` left to right.  The fuel is always instantiated
with the length of the scanned list, which is sufficient because every
step consumes at least one character. -/
def replaceAllFuel (needle repl : List Char) : Nat → List Char → List Char
  | _, [] => []
  | 0, cs => cs
  | fuel + 1, c :: rest =>
    if !needle.isEmpty && needle.isPrefixOf (c :: rest) then
      repl ++ replaceAllFuel needle repl fuel ((c :: rest).drop needle.length)
    else
      c :: replaceAllFuel needle repl fuel rest

/-- Python `s.replace(needle, repl)` (with a non-empty `needle`, which is
the only way the source uses it). -/
def pyReplace (s needle repl : String) : String :=
  String.mk (replaceAllFuel needle.data repl.data s.data.length s.data)

/-- Python truthiness of `current_file` in the reply parser: `None` and the
empty string are both falsy. -/
def pyTruthy : Option String → Bool
  | none => false
  | some s => !(s == "")

/-- Python `'\n'.join(lines)`. -/
def joinLines : List String → String
  | [] => ""
  | [l] => l
  | l :: ls => l ++ "\n" ++ joinLines ls

/-- Python `dict` assignment `d[k] = v`: updates the value in place when the
key is present (keeping its position), appends otherwise. -/
def pyInsert : List (String × String) → String → String → List (String × String)
  | [], k, v => [(k, v)]
  | (k0, v0) :: rest, k, v =>
    if k0 = k then (k0, v) :: rest else (k0, v0) :: pyInsert rest k v

/-- The keys of an association list (Python `dict` insertion order). -/
def keysOf (fs : List (String × String)) : List String :=
  fs.map Prod.fst

/-! ## Code Generator: delimiter-grammar reply parser
(`generate_code_with_mistral`, `src/api/webhook.py` lines 412-461). -/

/-- The terminator line recognised by the parser. -/
def endFileLine : String := "---END FILE---"

/-- `line.startswith('---FILE:') and line.endswith('---')`. -/
def isFileHeader (line : String) : Bool :=
  startsWithS line "---FILE:" && endsWithS line "---"

/-- `line.replace('---FILE:', '').replace('---', '').strip()`. -/
def lineToPath (line : String) : String :=
  pyStrip (pyReplace (pyReplace line "---FILE:" "") "---" "")

/-- `if current_file: files[current_file] = '\n'.join(current_content)`. -/
def flushInto (files : List (String × String)) (cur : Option String)
    (acc : List String) : List (String × String) :=
  match cur with
  | none => files
  | some f => if f == "" then files else pyInsert files f (joinLines acc)

/-- The line scan of `generate_code_with_mistral`: state is the accumulated
`files` dict, the currently open file (`current_file`) and its accumulated
lines (`current_content`). -/
def parseFilesLoop : List String → List (String × String) → Option String →
    List String → List (String × String)
  | [], files, _, _ => files
  | line :: rest, files, cur, acc =>
    if isFileHeader line then
      parseFilesLoop rest (flushInto files cur acc) (some (lineToPath line)) []
    else if line == endFileLine then
      parseFilesLoop rest (flushInto files cur acc) none []
    else if pyTruthy cur then
      parseFilesLoop rest files cur (acc ++ [line])
    else
      parseFilesLoop rest files cur acc

/-- The delimiter-grammar parse of a raw model reply
(`for line in content.split('\n'): ...`). -/
def parse_mistral_files (content : String) : List (String × String) :=
  parseFilesLoop (pySplitNl content) [] none []

/-! ### Fallback: fenced-code-block extraction
(`re.findall(r'```(?:[\w-]+)?\n(.*?)\n```', content, re.DOTALL)` and
`re.search(r'(?:[\w-]+\.[\w-]+)', first_line)`). -/

/-- `\w` (ASCII) or `-`, the character class `[\w-]` of the fallback
regexes. -/
def isWordDash (c : Char) : Bool :=
  c.isAlpha || c.isDigit || c = '_' || c = '-'

/-- Try to match `` ```(?:[\w-]+)?\n `` at the head of the list; on success
return the remainder after the opening fence line. -/
def matchFenceOpen : List Char → Option (List Char)
  | '`' :: '`' :: '`' :: rest =>
    match rest.dropWhile isWordDash with
    | '\n' :: after => some after
    | _ => none
  | _ => none

/-- The lazy part `(.*?)\n``` `: find the earliest occurrence of
`` \n``` ``; return the body before it and the remainder after it. -/
def findFenceClose (acc : List Char) : List Char → Option (List Char × List Char)
  | [] => none
  | '\n' :: '`' :: '`' :: '`' :: rest => some (acc.reverse, rest)
  | c :: rest => findFenceClose (c :: acc) rest

/-- One attempt of the fenced-block regex at the current position. -/
def matchFenceAt (cs : List Char) : Option (List Char × List Char) :=
  match matchFenceOpen cs with
  | some after => findFenceClose [] after
  | none => none

/-- `re.findall` scan for the fenced-block pattern: try to match at each
position, emit the captured body and continue after the match, else
advance one character.  Fuel is the length of the scanned list. -/
def findFencesFuel : Nat → List Char → List String
  | 0, _ => []
  | _, [] => []
  | fuel + 1, c :: rest =>
    match matchFenceAt (c :: rest) with
    | some (body, after) => String.mk body :: findFencesFuel fuel after
    | none => findFencesFuel fuel rest

/-- All fenced code blocks of the reply, in order (`code_blocks`). -/
def findCodeBlocks (content : String) : List String :=
  findFencesFuel content.data.length content.data

/-- `re.search(r'(?:[\w-]+\.[\w-]+)', line)`: leftmost match of a
word-dash run, a dot, and a second word-dash run. -/
def searchFilename : List Char → Option String
  | [] => none
  | c :: rest =>
    if isWordDash c then
      let r1 := (c :: rest).takeWhile isWordDash
      match (c :: rest).dropWhile isWordDash with
      | '.' :: r2 =>
        let s2 := r2.takeWhile isWordDash
        if s2.isEmpty then searchFilename rest
        else some (String.mk (r1 ++ '.' :: s2))
      | _ => searchFilename rest
    else searchFilename rest

/-- The synthesized filename of the fenced-block fallback: a filename-shaped
match in the first reply line, else `generated_code.py`. -/
def fallbackName (content : String) : String :=
  match searchFilename ((pySplitNl content).headD "").data with
  | some f => f
  | none => "generated_code.py"

/-- The `if not files:` fallback of `generate_code_with_mistral`. -/
def fallbackFiles (content : String) : List (String × String) :=
  match findCodeBlocks content with
  | b :: _ => [(fallbackName content, b)]
  | [] => [("generated_code.py", content)]

/-! ### Cleanup: fence stripping and unwanted-file filtering
(lines 444-458 of the source). -/

/-- `re.sub(r'^```[\w-]*\n', '', content)`: `^` anchors to the string start
(no MULTILINE flag), so at most the one leading fence line is removed. -/
def stripLeadFence (cs : List Char) : List Char :=
  match cs with
  | '`' :: '`' :: '`' :: rest =>
    match rest.dropWhile isWordDash with
    | '\n' :: tail => tail
    | _ => cs
  | _ => cs

/-- `re.sub(r'\n```$', '', content)`: without MULTILINE, `$` matches at the
very end or just before one final newline, so `...\n```" and `...\n```\n`
both lose their `\n```. -/
def stripTrailFence (cs : List Char) : List Char :=
  match cs.reverse with
  | '`' :: '`' :: '`' :: '\n' :: rest => rest.reverse
  | '\n' :: '`' :: '`' :: '`' :: '\n' :: rest => ('\n' :: rest).reverse
  | _ => cs

/-- Both cleanup substitutions, applied in source order. -/
def stripFence (s : String) : String :=
  String.mk (stripTrailFence (stripLeadFence s.data))

/-- The unwanted generated filenames dropped by the cleanup loop. -/
def skipNames : List String := ["readme.md", "license", "license.md", ".gitignore"]

/-- Python `filepath.split('/')[-1]`. -/
def lastSeg (p : String) : String :=
  (pySplitSlash p).getLastD ""

/-- The cleanup loop of `generate_code_with_mistral`: strip fence markers
from each content, and drop an unwanted filename whenever the parsed set
has more than one file. -/
def cleanupFiles (fs : List (String × String)) : List (String × String) :=
  fs.filterMap fun pc =>
    if skipNames.contains (pyLower (lastSeg pc.1)) ∧ 1 < fs.length then none
    else some (pc.1, stripFence pc.2)

/-- The full parse-fallback-cleanup pipeline applied to a model reply in
`generate_code_with_mistral` (the surrounding HTTP call is a collaborator
and is not modelled). -/
def mistral_files (content : String) : List (String × String) :=
  let files := parse_mistral_files content
  let files := if files.isEmpty then fallbackFiles content else files
  cleanupFiles files

/-! ## Instruction Extractor: repository resolution
(`extract_repo_from_email`, `get_repo_for_user`, and the target-repository
selection of `process_email`, lines 86-123 and 266-272). -/

/-- The character class `[a-zA-Z0-9_.-]` of every explicit-marker pattern. -/
def isSlugChar (c : Char) : Bool :=
  c.isAlpha || c.isDigit || c = '_' || c = '.' || c = '-'

/-- Case-insensitive literal match: drops `lit` (given lowercased) from the
head of the text, comparing lowercased characters. -/
def dropLitCI : List Char → List Char → Option (List Char)
  | [], cs => some cs
  | _ :: _, [] => none
  | l :: ls, c :: cs => if c.toLower = l then dropLitCI ls cs else none

/-- After the literal part of a pattern: optional `\s*` skip, then the
captured `[a-zA-Z0-9_.-]+/[a-zA-Z0-9_.-]+` slug pair.  The character class
excludes both whitespace and `/`, so the greedy runs need no backtracking. -/
def matchSlugPair (ws : Bool) (cs0 : List Char) : Option String :=
  let cs := if ws then cs0.dropWhile pyIsSpace else cs0
  let s1 := cs.takeWhile isSlugChar
  if s1.isEmpty then none
  else
    match cs.dropWhile isSlugChar with
    | '/' :: r2 =>
      let s2 := r2.takeWhile isSlugChar
      if s2.isEmpty then none else some (String.mk (s1 ++ '/' :: s2))
    | _ => none

/-- One attempt of a marker pattern at the current position. -/
def matchRepoAt (lit : List Char) (ws : Bool) (cs : List Char) : Option String :=
  match dropLitCI lit cs with
  | some rest => matchSlugPair ws rest
  | none => none

/-- `re.search` for one marker pattern: leftmost successful position. -/
def searchRepoPat (lit : List Char) (ws : Bool) : List Char → Option String
  | [] => matchRepoAt lit ws []
  | c :: rest =>
    match matchRepoAt lit ws (c :: rest) with
    | some r => some r
    | none => searchRepoPat lit ws rest

/-- The ordered marker patterns of `extract_repo_from_email`: the literal
part (lowercased) and whether `\s*` separates it from the captured slug. -/
def repoMarkers : List (String × Bool) :=
  [("repo:", true), ("@", false), ("github.com/", false),
   ("target:", true), ("project:", true)]

/-- `for pattern in patterns: ... re.search(pattern, text, re.IGNORECASE)`. -/
def findRepoMarker : List (String × Bool) → List Char → Option String
  | [], _ => none
  | (lit, ws) :: ps, cs =>
    match searchRepoPat lit.data ws cs with
    | some r => some r
    | none => findRepoMarker ps cs

/-- `extract_repo_from_email(subject, body)`: scans
`f"{subject} {body}"` against the ordered patterns. -/
def extract_repo_from_email (subject body : String) : Option String :=
  findRepoMarker repoMarkers (subject ++ " " ++ body).data

/-- The static sender table `email_to_repo`. -/
def email_to_repo : List (String × String) :=
  [("icarus@hidrokultur.com", "bO-05/mailforge-test-target"),
   ("pr-creator@hidrokultur.com", "bO-05/mailforge-test-target"),
   ("dev@hidrokultur.com", "bO-05/mailforge-test-target")]

/-- Exact-key lookup in the sender table (`from_email in email_to_repo`). -/
def lookupAssoc : List (String × String) → String → Option String
  | [], _ => none
  | (k, v) :: rest, key => if key == k then some v else lookupAssoc rest key

/-- `from_email.split('@')[-1] if '@' in from_email else ''`. -/
def pyEmailDomain (s : String) : String :=
  if s.data.contains '@' then
    (((splitOnChar '@' s.data).map String.mk).getLastD "")
  else ""

/-- `get_repo_for_user(from_email)`: exact sender match first, then the
domain table. -/
def get_repo_for_user (from_email : String) : Option String :=
  match lookupAssoc email_to_repo from_email with
  | some r => some r
  | none =>
    if pyEmailDomain from_email = "hidrokultur.com" then
      some "bO-05/mailforge-test-target"
    else none

/-- Python `a or b` on an optional string: `None` and `""` are falsy. -/
def pyOrStr (a : Option String) (d : String) : String :=
  match a with
  | some s => if s == "" then d else s
  | none => d

/-- The configuration surface read by the resolution step of
`process_email`. -/
structure ProcEnv where
  github_repo : Option String

/-- The target-repository selection of `process_email` (lines 266-272):
`extract_repo_from_email` wins outright; otherwise
`get_repo_for_user(from_email) or os.environ.get("GITHUB_REPO",
"bO-05/mailforge-test-target")`. -/
def process_email_target_repo (subject text_body from_email : String)
    (env : ProcEnv) : String :=
  match extract_repo_from_email subject text_body with
  | some r => r
  | none =>
    pyOrStr (get_repo_for_user from_email)
      (env.github_repo.getD "bO-05/mailforge-test-target")

/-! ## Repository Committer (`create_github_pr`, lines 467-571)

The hosting API is a collaborator: its responses are an environment, and
the requests the committer issues are recorded in a trace.  Base64 content
encoding is transport glue and is not modelled. -/

/-- Responses of the hosting API as seen by `create_github_pr`:
`repo_default_branch` is `repo_json.get("default_branch", "main")` (absent
field modelled as `none`); `contentsStatus`/`contentsSha` describe the
per-path existence read `GET contents/<path>?ref=<default>`, and
`putStatus` the per-path write `PUT contents/<path>`. -/
structure PrEnv where
  repo_default_branch : Option String
  contentsStatus : String → Nat
  contentsSha : String → String
  putStatus : String → Nat

/-- A request issued by the committer file loop. -/
inductive GhAction where
  | getContents (path : String) (ref : String) (status : Nat)
  | putContents (path : String) (branch : String) (sha : Option String) (status : Nat)
deriving DecidableEq

/-- `path.lower() in {"license", "license.md"} and len(files) > 1` — note
the whole path is lowercased, not its final segment. -/
def skip_license (path : String) (nfiles : Nat) : Bool :=
  (pyLower path == "license" || pyLower path == "license.md") && decide (1 < nfiles)

/-- One iteration of the file loop of `create_github_pr`: skip check, then
existence read on the default branch capturing the sha on a 200, then the
write to the new branch carrying the sha token exactly when a truthy sha
was captured.  Returns the issued requests and whether the loop continues
(`put.status_code in (200, 201)`). -/
def commit_file (env : PrEnv) (branch : String) (nfiles : Nat) (path : String) :
    List GhAction × Bool :=
  if skip_license path nfiles then ([], true)
  else
    let defBranch := env.repo_default_branch.getD "main"
    let st := env.contentsStatus path
    let sha : Option String := if st = 200 then some (env.contentsSha path) else none
    let bodySha : Option String := if pyTruthy sha then sha else none
    let pst := env.putStatus path
    ([GhAction.getContents path defBranch st,
      GhAction.putContents path branch bodySha pst],
     pst = 200 || pst = 201)

/-- The file loop of `create_github_pr` over the generated `FileSet`:
a failing write raises `RuntimeError` and aborts the remaining files
(`nfiles` is the size of the whole set, fixed before the loop). -/
def commit_files (env : PrEnv) (branch : String) (nfiles : Nat) :
    List (String × String) → List GhAction × Bool
  | [] => ([], true)
  | (p, _) :: rest =>
    let r := commit_file env branch nfiles p
    if r.2 then
      let rr := commit_files env branch nfiles rest
      (r.1 ++ rr.1, rr.2)
    else
      (r.1, false)

/-- The sha tokens of the writes issued for `p`, in order: one element per
write request targeting path `p`. -/
def writeTokens (tr : List GhAction) (p : String) : List (Option String) :=
  tr.filterMap fun a =>
    match a with
    | GhAction.putContents q _ sha _ => if q = p then some sha else none
    | _ => none

/-- The refs of the existence reads issued for `p`, in order. -/
def readRefs (tr : List GhAction) (p : String) : List String :=
  tr.filterMap fun a =>
    match a with
    | GhAction.getContents q r _ => if q = p then some r else none
    | _ => none

/-! ## Context Gatherer (`get_repo_context`, lines 138-236) -/

/-- One entry of the recursive tree listing. -/
structure TreeItem where
  type : String
  size : Nat
  path : String

/-- Responses of the hosting API as seen by `get_repo_context`:
`default_branch` is the actual default branch of the repository (the
function never asks for it); `treeStatus` answers
`GET git/trees/<ref>?recursive=1` per requested ref, `tree` is the listing
returned on a 200, and `fileStatus`/`fileSize`/`fileText` describe the
per-path content fetch (`fileText = none` models undecodable binary
content). -/
structure CtxEnv where
  default_branch : String
  treeStatus : String → Nat
  tree : List TreeItem
  fileStatus : String → Nat
  fileSize : String → Nat
  fileText : String → Option String

/-- A request issued by the context gatherer. -/
inductive CtxAction where
  | getTree (ref : String)
  | getFile (path : String)
deriving DecidableEq

/-- The fixed `important_keywords` list. -/
def important_keywords : List String :=
  ["main.py", "app.py", "__init__.py", "requirements.txt",
   "config", "model", "api", "endpoint", "route", "server",
   "fastapi", "flask", "django", "package.json", "setup.py"]

/-- The `should_include` heuristic for one tree item (the blob/size guard
is part of the surrounding loop, see `relevant_files`). -/
def shouldInclude (instructionLower : String) (item : TreeItem) : Bool :=
  let filename := pyLower (lastSeg item.path)
  important_keywords.any (fun kw => strContains filename kw)
  || [pyReplace filename ".py" "", pyReplace filename ".js" "",
      pyLower item.path].any (fun kw => strContains instructionLower kw)
  || (endsWithS filename ".py"
      && (!(item.path.data.contains '/')
          || startsWithS item.path "src/" || startsWithS item.path "app/"
          || startsWithS item.path "api/"))

/-- The filtered candidate paths, capped at 8 (`relevant_files[:8]`). -/
def relevant_files (env : CtxEnv) (instruction : String) : List String :=
  ((env.tree.filter fun item =>
      item.type == "blob" && item.size < 50000
        && shouldInclude (pyLower instruction) item).map TreeItem.path).take 8

/-- The context text contributed by one candidate path: fetched content in
a fenced block, a binary or too-large annotation, or nothing on a failed
fetch (the failure is swallowed). -/
def fetchFileCtx (env : CtxEnv) (p : String) : String :=
  if env.fileStatus p = 200 then
    if env.fileSize p < 10000 then
      match env.fileText p with
      | some t => "### " ++ p ++ "\n```python\n" ++ t ++ "\n```\n\n"
      | none => "### " ++ p ++ "\n*Binary file - content not shown*\n\n"
    else "### " ++ p ++ "\n*File too large - content not shown*\n\n"
  else ""

/-- `get_repo_context(repo, headers, instruction)`: the tree is requested
from the literal ref `"main"`; a non-200 answer returns the empty string;
otherwise the candidate files are fetched and formatted.  Returns the
request trace together with the produced context text. -/
def get_repo_context (env : CtxEnv) (repo instruction : String) :
    List CtxAction × String :=
  let acts := [CtxAction.getTree "main"]
  if env.treeStatus "main" ≠ 200 then (acts, "")
  else
    let rel := relevant_files env instruction
    if rel.isEmpty then
      (acts, "## Repository Context:\nNo relevant existing files found. This appears to be a new project or the files are in subdirectories not yet explored.\n\n")
    else
      let header := "## Existing Repository Structure and Code:\n\n"
        ++ "**Repository:** " ++ repo ++ "\n"
        ++ "**Relevant files found:** " ++ toString rel.length ++ "\n\n"
      (acts ++ rel.map CtxAction.getFile,
       rel.foldl (fun s p => s ++ fetchFileCtx env p) header)

/-! ## Notifier (`send_email_response` lines 573-624 and `send_error_email`
lines 626-668)

Each notifier wraps its whole body in a catch-all handler, so a failing
email send (an exception from `requests.post`, or `raise_for_status` on an
error status in the success notifier) is swallowed and the function
returns normally.  The body is modelled in `Except`: `postResult` is an
exception (`Except.error`) or the HTTP status of the send. -/

structure MailEnv where
  postResult : Except String Nat

/-- `response.raise_for_status()`: raises `HTTPError` for 4xx and 5xx. -/
def raise_for_status (st : Nat) : Except String Unit :=
  if 400 ≤ st ∧ st < 600 then Except.error "HTTPError" else Except.ok ()

/-- The body of `send_email_response` inside its `try`: post the message,
then `raise_for_status`. -/
def send_email_response_body (env : MailEnv) : Except String Unit :=
  match env.postResult with
  | Except.error e => Except.error e
  | Except.ok st => raise_for_status st

/-- `send_email_response`: the catch-all `except Exception` logs and
returns. -/
def send_email_response (env : MailEnv) : Except String Unit :=
  match send_email_response_body env with
  | Except.error _ => Except.ok ()
  | Except.ok _ => Except.ok ()

/-- The body of `send_error_email` inside its `try`: post the message (the
status is not checked). -/
def send_error_email_body (env : MailEnv) : Except String Unit :=
  match env.postResult with
  | Except.error e => Except.error e
  | Except.ok _ => Except.ok ()

/-- `send_error_email`: the bare `except: pass` swallows everything. -/
def send_error_email (env : MailEnv) : Except String Unit :=
  match send_error_email_body env with
  | Except.error _ => Except.ok ()
  | Except.ok _ => Except.ok ()

/-! ## Well-formed delimiter blocks

A reply made of delimiter blocks, as described by the spec grammar: each
block is a path together with its content lines. -/

/-- The opening line `---FILE: <path>---` of a block. -/
def headerLine (p : String) : String := "---FILE: " ++ p ++ "---"

/-- The lines of one block. -/
def blockLines (b : String × List String) : List String :=
  headerLine b.1 :: b.2 ++ [endFileLine]

/-- The lines of a sequence of blocks. -/
def flattenBlocks : List (String × List String) → List String
  | [] => []
  | b :: bs => blockLines b ++ flattenBlocks bs

/-- Well-formedness of one block: a non-empty path that round-trips
through the header-line parse, and content lines that are neither header
nor terminator lines. -/
def WfBlock (b : String × List String) : Prop :=
  b.1 ≠ "" ∧ isFileHeader (headerLine b.1) = true
    ∧ lineToPath (headerLine b.1) = b.1
    ∧ ∀ l ∈ b.2, isFileHeader l = false ∧ l ≠ endFileLine

instance (b : String × List String) : Decidable (WfBlock b) := by
  unfold WfBlock; infer_instance

/-! ## Parser lemmas -/

theorem pyInsert_fresh (fs : List (String × String)) (k v : String)
    (h : k ∉ keysOf fs) : pyInsert fs k v = fs ++ [(k, v)] := by
  induction fs with
  | nil => rfl
  | cons hd tl ih =>
    obtain ⟨k0, v0⟩ := hd
    simp only [keysOf, List.map_cons, List.mem_cons, not_or] at h
    simp only [pyInsert, if_neg (Ne.symm h.1), List.cons_append, List.cons.injEq,
      true_and]
    exact ih (by simpa [keysOf] using h.2)

theorem parseLoop_header (line : String) (rest : List String) (files : List (String × String))
    (cur : Option String) (acc : List String) (h : isFileHeader line = true) :
    parseFilesLoop (line :: rest) files cur acc
      = parseFilesLoop rest (flushInto files cur acc) (some (lineToPath line)) [] := by
  simp [parseFilesLoop, h]

theorem parseLoop_end (rest : List String) (files : List (String × String))
    (cur : Option String) (acc : List String) :
    parseFilesLoop (endFileLine :: rest) files cur acc
      = parseFilesLoop rest (flushInto files cur acc) none [] := by
  have h : isFileHeader endFileLine = false := by decide
  simp [parseFilesLoop, h]

theorem parseLoop_other (line : String) (rest : List String) (files : List (String × String))
    (cur : Option String) (acc : List String)
    (h1 : isFileHeader line = false) (h2 : line ≠ endFileLine) :
    parseFilesLoop (line :: rest) files cur acc
      = if pyTruthy cur then parseFilesLoop rest files cur (acc ++ [line])
        else parseFilesLoop rest files cur acc := by
  simp [parseFilesLoop, h1, h2]

/-- Lines that are neither headers nor terminators never change the
accumulated files dict. -/
theorem parseLoop_inert (tail : List String)
    (h : ∀ l ∈ tail, isFileHeader l = false ∧ l ≠ endFileLine) :
    ∀ (files : List (String × String)) (cur : Option String) (acc : List String),
      parseFilesLoop tail files cur acc = files := by
  induction tail with
  | nil => intro files cur acc; rfl
  | cons l rest ih =>
    intro files cur acc
    have hl := h l (by simp)
    rw [parseLoop_other l rest files cur acc hl.1 hl.2]
    by_cases hc : pyTruthy cur = true
    · simp only [hc, if_true]
      exact ih (fun x hx => h x (by simp [hx])) files cur (acc ++ [l])
    · simp only [Bool.not_eq_true] at hc
      simp only [hc, Bool.false_eq_true, if_false]
      exact ih (fun x hx => h x (by simp [hx])) files cur acc

/-- Scanning the content lines of an open file accumulates them and the
terminator stores the newline-join under the open path. -/
theorem parseLoop_body (body : List String) (p : String) (hp : p ≠ "")
    (hb : ∀ l ∈ body, isFileHeader l = false ∧ l ≠ endFileLine) :
    ∀ (rest : List String) (files : List (String × String)) (acc : List String),
      parseFilesLoop (body ++ endFileLine :: rest) files (some p) acc
        = parseFilesLoop rest (pyInsert files p (joinLines (acc ++ body))) none [] := by
  induction body with
  | nil =>
    intro rest files acc
    simp only [List.nil_append, List.append_nil]
    rw [parseLoop_end]
    simp [flushInto, hp]
  | cons l ls ih =>
    intro rest files acc
    have hl := hb l (by simp)
    simp only [List.cons_append]
    rw [parseLoop_other _ _ _ _ _ hl.1 hl.2]
    have ht : pyTruthy (some p) = true := by simp [pyTruthy, hp]
    simp only [ht, if_true]
    rw [ih (fun x hx => hb x (by simp [hx])) rest files (acc ++ [l])]
    simp [List.append_assoc]

/-- Scanning a sequence of fresh, well-formed blocks from a closed state
appends their parses to the files dict, then continues on the rest. -/
theorem parseLoop_blocks (blocks : List (String × List String)) :
    ∀ (rest : List String) (files : List (String × String)),
      (∀ b ∈ blocks, WfBlock b) →
      (blocks.map Prod.fst).Nodup →
      (∀ b ∈ blocks, b.1 ∉ keysOf files) →
      parseFilesLoop (flattenBlocks blocks ++ rest) files none []
        = parseFilesLoop rest
            (files ++ blocks.map (fun b => (b.1, joinLines b.2))) none [] := by
  induction blocks with
  | nil => intro rest files _ _ _; simp [flattenBlocks]
  | cons b bs ih =>
    intro rest files hwf hnd hfresh
    obtain ⟨p, body⟩ := b
    obtain ⟨hp, hhdr, hpath, hbody⟩ := hwf (p, body) (by simp)
    have hre : flattenBlocks ((p, body) :: bs) ++ rest
        = headerLine p :: (body ++ endFileLine :: (flattenBlocks bs ++ rest)) := by
      simp [flattenBlocks, blockLines]
    rw [hre, parseLoop_header _ _ _ _ _ hhdr]
    show parseFilesLoop _ files (some (lineToPath (headerLine p))) [] = _
    rw [hpath, parseLoop_body body p hp hbody _ files []]
    rw [List.nil_append, pyInsert_fresh files p _ (hfresh (p, body) (by simp))]
    have hnd' : (bs.map Prod.fst).Nodup := (List.nodup_cons.mp (by simpa using hnd)).2
    have hpout : p ∉ bs.map Prod.fst := (List.nodup_cons.mp (by simpa using hnd)).1
    rw [ih rest (files ++ [(p, joinLines body)]) (fun b hb => hwf b (by simp [hb])) hnd'
      (by
        intro b hb
        simp only [keysOf, List.map_append, List.mem_append, not_or]
        refine ⟨by simpa [keysOf] using hfresh b (by simp [hb]), ?_⟩
        simp only [List.map_cons, List.map_nil, List.mem_singleton]
        intro hcontra
        exact hpout (hcontra ▸ List.mem_map_of_mem Prod.fst hb))]
    simp

/-! ## Cleanup lemmas -/

/-- The cleanup loop never introduces a path that was not parsed. -/
theorem keysOf_cleanup (fs : List (String × String)) (p : String)
    (h : p ∉ keysOf fs) : p ∉ keysOf (cleanupFiles fs) := by
  intro hmem
  apply h
  unfold cleanupFiles at hmem
  unfold keysOf at hmem ⊢
  rw [List.mem_map] at hmem
  obtain ⟨⟨q, c⟩, hqc, hq⟩ := hmem
  rw [List.mem_filterMap] at hqc
  obtain ⟨⟨q0, c0⟩, hin, heq⟩ := hqc
  by_cases hcond : skipNames.contains (pyLower (lastSeg q0)) = true ∧ 1 < fs.length
  · rw [if_pos hcond] at heq; cases heq
  · rw [if_neg hcond] at heq
    simp only [Option.some.injEq, Prod.mk.injEq] at heq
    simp only at hq
    subst hq
    exact heq.1 ▸ List.mem_map_of_mem Prod.fst hin

/-- Cleanup keeps a singleton set whatever its name, stripping fences. -/
theorem cleanup_singleton (n c : String) :
    cleanupFiles [(n, c)] = [(n, stripFence c)] := by
  simp [cleanupFiles]

/-! ## Claim C3 -/

/-- Claim C3 (confirmed): for every model reply consisting of N well-formed
delimiter blocks — each opened by a line exactly `---FILE: <path>---` and
closed by a line exactly `---END FILE---`, with non-empty, distinct paths —
the parser of `generate_code_with_mistral` yields exactly N entries, each
entry mapping the block path to the enclosed lines joined by newlines,
with the path-to-content mapping and the original order preserved. -/
theorem parser_blocks_exact (content : String)
    (blocks : List (String × List String))
    (hsplit : pySplitNl content = flattenBlocks blocks)
    (hwf : ∀ b ∈ blocks, WfBlock b)
    (hnd : (blocks.map Prod.fst).Nodup) :
    parse_mistral_files content = blocks.map (fun b => (b.1, joinLines b.2))
    ∧ (parse_mistral_files content).length = blocks.length := by
  have h : parse_mistral_files content = blocks.map (fun b => (b.1, joinLines b.2)) := by
    unfold parse_mistral_files
    rw [hsplit, show flattenBlocks blocks = flattenBlocks blocks ++ [] by simp,
      parseLoop_blocks blocks [] [] hwf hnd (by simp [keysOf])]
    simp [parseFilesLoop]
  exact ⟨h, by simp [h]⟩

/-- Witness for C3: a two-block reply parses to its two files. -/
theorem parser_blocks_exact_witness :
    parse_mistral_files
        "---FILE: a.py---\nx\ny\n---END FILE---\n---FILE: b.py---\nz\n---END FILE---"
      = [("a.py", "x\ny"), ("b.py", "z")] := by
  have h := parser_blocks_exact
    "---FILE: a.py---\nx\ny\n---END FILE---\n---FILE: b.py---\nz\n---END FILE---"
    [("a.py", ["x", "y"]), ("b.py", ["z"])]
    (by decide) (by decide) (by decide)
  exact h.1.trans (by decide)

/-! ## Claim C4 -/

/-- Counterexample for C4 as stated: in the reply
`---FILE: a.py---\nx\n---END FILE---\n---FILE: a.py---\ny` the final
`---FILE: a.py---` block is not followed by any `---END FILE---` line and
by no further `---FILE:` line, yet its path `a.py` is present in the
parsed mapping (bound to the earlier terminated block's content, the
trailing content `y` being dropped), so the trailing path is not absent. -/
theorem parser_trailing_open_ce :
    "a.py" ∈ keysOf (parse_mistral_files
        "---FILE: a.py---\nx\n---END FILE---\n---FILE: a.py---\ny")
    ∧ mistral_files "---FILE: a.py---\nx\n---END FILE---\n---FILE: a.py---\ny"
      = [("a.py", "x")] := by
  exact ⟨by decide, by decide⟩

/-- Claim C4 (corrected): the trailing open file is never flushed at end of
input; its path is absent from the parsed mapping provided it is not also
the path of an earlier terminated block, and absent from the final file
set provided additionally at least one block was terminated (otherwise
the zero-files fallback synthesizes a fresh mapping). -/
theorem parser_trailing_open_dropped (content : String)
    (blocks : List (String × List String)) (p : String) (tail : List String)
    (hsplit : pySplitNl content = flattenBlocks blocks ++ headerLine p :: tail)
    (hwf : ∀ b ∈ blocks, WfBlock b)
    (hnd : (blocks.map Prod.fst).Nodup)
    (hhdr : isFileHeader (headerLine p) = true)
    (htail : ∀ l ∈ tail, isFileHeader l = false ∧ l ≠ endFileLine)
    (hfresh : p ∉ blocks.map Prod.fst) :
    p ∉ keysOf (parse_mistral_files content)
    ∧ (blocks ≠ [] → p ∉ keysOf (mistral_files content)) := by
  have hparse : parse_mistral_files content
      = blocks.map (fun b => (b.1, joinLines b.2)) := by
    unfold parse_mistral_files
    rw [hsplit, parseLoop_blocks blocks (headerLine p :: tail) [] hwf hnd
      (by simp [keysOf])]
    rw [parseLoop_header _ _ _ _ _ hhdr]
    exact parseLoop_inert tail htail _ _ _
  have hk : p ∉ keysOf (parse_mistral_files content) := by
    rw [hparse]
    intro hmem
    unfold keysOf at hmem
    rw [List.map_map] at hmem
    exact hfresh (by simpa using hmem)
  refine ⟨hk, fun hne => ?_⟩
  have hne2 : (parse_mistral_files content).isEmpty = false := by
    rw [hparse]
    cases blocks with
    | nil => exact absurd rfl hne
    | cons b bs => simp
  unfold mistral_files
  simp only [hne2, Bool.false_eq_true, if_false]
  exact keysOf_cleanup _ p hk

/-- Witness for the corrected C4: a terminated `a.py` block followed by an
unterminated `b.py` block leaves `b.py` out of both the parsed mapping and
the final file set. -/
theorem parser_trailing_open_dropped_witness :
    "b.py" ∉ keysOf (parse_mistral_files
        "---FILE: a.py---\nx\n---END FILE---\n---FILE: b.py---\ny")
    ∧ "b.py" ∉ keysOf (mistral_files
        "---FILE: a.py---\nx\n---END FILE---\n---FILE: b.py---\ny") := by
  have h := parser_trailing_open_dropped
    "---FILE: a.py---\nx\n---END FILE---\n---FILE: b.py---\ny"
    [("a.py", ["x"])] "b.py" ["y"]
    (by decide) (by decide) (by decide) (by decide) (by decide) (by decide)
  exact ⟨h.1, h.2 (by decide)⟩

/-! ## Claim C7 -/

/-- Counterexample for C7 as stated: the reply `x\n```+ has no delimiter
block and no fenced code block, so the claim requires one default-named
file wrapping the entire raw reply; but the post-parse cleanup strips the
trailing fence marker, and the stored content is `x`, not the raw reply. -/
theorem fallback_wrap_ce :
    parse_mistral_files "x\n```" = []
    ∧ findCodeBlocks "x\n```" = []
    ∧ mistral_files "x\n```" = [("generated_code.py", "x")]
    ∧ mistral_files "x\n```" ≠ [("generated_code.py", "x\n```")] := by
  exact ⟨by decide, by decide, by decide, by decide⟩

/-- Claim C7 (corrected): a reply parsed to zero delimiter files yields
exactly one file — the first fenced block's body under a filename
synthesized from the first reply line (default `generated_code.py`) when a
fenced block exists, else the whole raw reply under the default name — in
both cases up to the post-parse cleanup that strips one leading fence line
and one trailing fence marker from the stored content. -/
theorem fallback_single_file (content : String)
    (hempty : parse_mistral_files content = []) :
    mistral_files content
      = (match findCodeBlocks content with
         | b :: _ => [(fallbackName content, stripFence b)]
         | [] => [("generated_code.py", stripFence content)])
    ∧ (mistral_files content).length = 1 := by
  have h : mistral_files content
      = (match findCodeBlocks content with
         | b :: _ => [(fallbackName content, stripFence b)]
         | [] => [("generated_code.py", stripFence content)]) := by
    unfold mistral_files
    rw [hempty]
    simp only [List.isEmpty_nil, if_true]
    unfold fallbackFiles
    cases h : findCodeBlocks content with
    | nil => simp [cleanup_singleton]
    | cons b bs => simp [cleanup_singleton]
  refine ⟨h, ?_⟩
  rw [h]
  cases findCodeBlocks content <;> simp

/-- Witness for the corrected C7: one fenced block, no delimiter block. -/
theorem fallback_single_file_witness :
    mistral_files "```\nx\n```" = [("generated_code.py", "x")]
    ∧ (mistral_files "```\nx\n```").length = 1 := by
  have h := fallback_single_file "```\nx\n```" (by decide)
  exact ⟨h.1.trans (by decide), h.2⟩

/-! ## Claim C8 -/

/-- Claim C8 (confirmed): after parsing, the Code Generator drops every
file whose path's final segment case-insensitively matches `readme.md`,
`license`, `license.md` or `.gitignore` whenever the parsed set has more
than one file, and keeps it when it is the only file; every kept file is
stored with the fenced-code-block delimiters stripped from the start and
end of its content. -/
theorem cleanup_filter_spec (fs : List (String × String)) (p c : String)
    (hmem : (p, c) ∈ fs) :
    (skipNames.contains (pyLower (lastSeg p)) = true ∧ 1 < fs.length →
      p ∉ keysOf (cleanupFiles fs))
    ∧ (¬(skipNames.contains (pyLower (lastSeg p)) = true ∧ 1 < fs.length) →
      (p, stripFence c) ∈ cleanupFiles fs) := by
  constructor
  · rintro ⟨hskip, hlen⟩ hkey
    unfold cleanupFiles keysOf at hkey
    rw [List.mem_map] at hkey
    obtain ⟨⟨q, d⟩, hqd, hq⟩ := hkey
    rw [List.mem_filterMap] at hqd
    obtain ⟨⟨q0, d0⟩, _, heq⟩ := hqd
    by_cases hcond : skipNames.contains (pyLower (lastSeg q0)) = true ∧ 1 < fs.length
    · rw [if_pos hcond] at heq; cases heq
    · rw [if_neg hcond] at heq
      simp only [Option.some.injEq, Prod.mk.injEq] at heq
      simp only at hq
      apply hcond
      refine ⟨?_, hlen⟩
      rw [heq.1, hq]
      exact hskip
  · intro hnot
    unfold cleanupFiles
    rw [List.mem_filterMap]
    exact ⟨(p, c), hmem, by rw [if_neg hnot]⟩

/-- Witness for C8: with two parsed files, `README.md` is dropped and the
other file is kept with its fences stripped; a lone `LICENSE` survives. -/
theorem cleanup_filter_spec_witness :
    "README.md" ∉ keysOf (cleanupFiles
      [("README.md", "a"), ("src/b.py", "```py\ncode\n```")])
    ∧ ("src/b.py", stripFence "```py\ncode\n```") ∈ cleanupFiles
      [("README.md", "a"), ("src/b.py", "```py\ncode\n```")]
    ∧ ("LICENSE", stripFence "t") ∈ cleanupFiles [("LICENSE", "t")] := by
  refine ⟨(cleanup_filter_spec _ "README.md" "a" (by decide)).1 (by decide),
    (cleanup_filter_spec _ "src/b.py" "```py\ncode\n```" (by decide)).2 (by decide),
    (cleanup_filter_spec _ "LICENSE" "t" (by decide)).2 (by decide)⟩

/-! ## Committer lemmas -/

/-- Whether an issued request targets path `p`. -/
def touches (p : String) : GhAction → Bool
  | GhAction.getContents q _ _ => q == p
  | GhAction.putContents q _ _ _ => q == p

/-- The subtrace of requests targeting path `p`, in order. -/
def actionsFor (tr : List GhAction) (p : String) : List GhAction :=
  tr.filter (touches p)

theorem actionsFor_append (l1 l2 : List GhAction) (p : String) :
    actionsFor (l1 ++ l2) p = actionsFor l1 p ++ actionsFor l2 p := by
  simp [actionsFor]

theorem writeTokens_eq_actionsFor (tr : List GhAction) (p : String) :
    writeTokens tr p = (actionsFor tr p).filterMap fun a =>
      match a with
      | GhAction.putContents _ _ sha _ => some sha
      | _ => none := by
  induction tr with
  | nil => rfl
  | cons a tr ih =>
    cases a with
    | getContents q r st =>
      by_cases hq : q = p <;>
        simp [writeTokens, actionsFor, touches, hq, List.filterMap_cons,
          writeTokens, actionsFor] at ih ⊢ <;> exact ih
    | putContents q b sha st =>
      by_cases hq : q = p <;>
        simp [writeTokens, actionsFor, touches, hq, List.filterMap_cons] at ih ⊢ <;>
        exact ih

/-- One unfolding step of the file loop. -/
theorem commit_files_cons (env : PrEnv) (branch : String) (nfiles : Nat)
    (p c : String) (tl : List (String × String)) :
    commit_files env branch nfiles ((p, c) :: tl)
      = if (commit_file env branch nfiles p).2
        then ((commit_file env branch nfiles p).1
                ++ (commit_files env branch nfiles tl).1,
              (commit_files env branch nfiles tl).2)
        else ((commit_file env branch nfiles p).1, false) := rfl

/-- A successful write lets the loop continue. -/
theorem commit_file_ok (env : PrEnv) (branch : String) (nfiles : Nat) (p : String)
    (h : env.putStatus p = 200 ∨ env.putStatus p = 201) :
    (commit_file env branch nfiles p).2 = true := by
  unfold commit_file
  by_cases hs : skip_license p nfiles = true
  · simp [hs]
  · simp only [Bool.not_eq_true] at hs
    rcases h with h | h <;> simp [hs, h]

/-- The two requests a non-skipped path generates, given a non-empty sha. -/
theorem actionsFor_commit_file_self (env : PrEnv) (branch : String) (nfiles : Nat)
    (p : String) (hskip : skip_license p nfiles = false)
    (hsha : env.contentsSha p ≠ "") :
    actionsFor (commit_file env branch nfiles p).1 p
      = [GhAction.getContents p (env.repo_default_branch.getD "main")
           (env.contentsStatus p),
         GhAction.putContents p branch
           (if env.contentsStatus p = 200 then some (env.contentsSha p) else none)
           (env.putStatus p)] := by
  unfold commit_file
  simp only [hskip, Bool.false_eq_true, if_false]
  by_cases hst : env.contentsStatus p = 200
  · simp [actionsFor, touches, hst, pyTruthy, hsha]
  · simp [actionsFor, touches, hst, pyTruthy]

/-- A file entry contributes no request targeting another path. -/
theorem actionsFor_commit_file_other (env : PrEnv) (branch : String) (nfiles : Nat)
    (q p : String) (hne : q ≠ p) :
    actionsFor (commit_file env branch nfiles q).1 p = [] := by
  unfold commit_file
  by_cases hs : skip_license q nfiles = true
  · simp [hs, actionsFor]
  · simp only [Bool.not_eq_true] at hs
    simp [hs, actionsFor, touches, hne]

/-- No request ever targets a path outside the file set. -/
theorem actionsFor_commit_files_absent (env : PrEnv) (branch : String) (p : String) :
    ∀ (fs : List (String × String)) (nfiles : Nat), p ∉ keysOf fs →
      actionsFor (commit_files env branch nfiles fs).1 p = [] := by
  intro fs
  induction fs with
  | nil => intro nfiles _; rfl
  | cons hd tl ih =>
    intro nfiles h
    obtain ⟨q, d⟩ := hd
    simp only [keysOf, List.map_cons, List.mem_cons, not_or] at h
    have hq : actionsFor (commit_file env branch nfiles q).1 p = [] :=
      actionsFor_commit_file_other env branch nfiles q p (Ne.symm h.1)
    unfold commit_files
    by_cases hr : (commit_file env branch nfiles q).2 = true
    · simp only [hr, if_true]
      rw [actionsFor_append, hq, List.nil_append]
      exact ih nfiles (by simpa [keysOf] using h.2)
    · simp only [Bool.not_eq_true] at hr
      simp only [hr, Bool.false_eq_true, if_false]
      exact hq

/-- A path skipped by the license guard generates no request at all,
whatever the rest of the set does. -/
theorem actionsFor_commit_files_skipped (env : PrEnv) (branch : String)
    (nfiles : Nat) (p : String) (hskip : skip_license p nfiles = true) :
    ∀ fs : List (String × String),
      actionsFor (commit_files env branch nfiles fs).1 p = [] := by
  intro fs
  induction fs with
  | nil => rfl
  | cons hd tl ih =>
    obtain ⟨q, d⟩ := hd
    have hq : actionsFor (commit_file env branch nfiles q).1 p = [] := by
      by_cases hpq : q = p
      · subst hpq; unfold commit_file; simp [hskip, actionsFor]
      · exact actionsFor_commit_file_other env branch nfiles q p hpq
    unfold commit_files
    by_cases hr : (commit_file env branch nfiles q).2 = true
    · simp only [hr, if_true]
      rw [actionsFor_append, hq, List.nil_append]
      exact ih
    · simp only [Bool.not_eq_true] at hr
      simp only [hr, Bool.false_eq_true, if_false]
      exact hq

/-! ## Claim C1 -/

/-- Claim C1 (confirmed): for every FileSet with unique, non-empty paths,
under the hosting-API collaborator contract (existence reads answer the
success status 200 or an error status of at least 400, content hashes are
non-empty, and the file writes succeed), the committer issues for every
non-skipped path exactly one existence read — against the resolved default
branch — immediately followed by exactly one write to the new branch, and
that write carries the prior-content-hash token exactly when the read for
that path returned the success status 200; with no prior hash the token is
omitted entirely. -/
theorem committer_write_per_path (env : PrEnv) (branch : String)
    (files : List (String × String))
    (hnd : (keysOf files).Nodup)
    (hne : ∀ pc ∈ files, pc.1 ≠ "")
    (hput : ∀ pc ∈ files, env.putStatus pc.1 = 200 ∨ env.putStatus pc.1 = 201)
    (hsha : ∀ q : String, env.contentsSha q ≠ "")
    (hst : ∀ q : String, env.contentsStatus q = 200 ∨ 400 ≤ env.contentsStatus q)
    (p c : String) (hmem : (p, c) ∈ files)
    (hskip : skip_license p files.length = false) :
    actionsFor (commit_files env branch files.length files).1 p
      = [GhAction.getContents p (env.repo_default_branch.getD "main")
           (env.contentsStatus p),
         GhAction.putContents p branch
           (if env.contentsStatus p = 200 then some (env.contentsSha p) else none)
           (env.putStatus p)] := by
  have main : ∀ (fs : List (String × String)) (n : Nat),
      (keysOf fs).Nodup →
      (∀ pc ∈ fs, env.putStatus pc.1 = 200 ∨ env.putStatus pc.1 = 201) →
      (p, c) ∈ fs → skip_license p n = false →
      actionsFor (commit_files env branch n fs).1 p
        = [GhAction.getContents p (env.repo_default_branch.getD "main")
             (env.contentsStatus p),
           GhAction.putContents p branch
             (if env.contentsStatus p = 200 then some (env.contentsSha p) else none)
             (env.putStatus p)] := by
    intro fs
    induction fs with
    | nil => intro n _ _ hm _; cases hm
    | cons hd tl ih =>
      intro n hnd0 hput0 hm hsk
      obtain ⟨q, d⟩ := hd
      unfold keysOf at hnd0
      rw [List.map_cons, List.nodup_cons] at hnd0
      have hok : (commit_file env branch n q).2 = true :=
        commit_file_ok env branch n q (hput0 (q, d) (by simp))
      have hstep : (commit_files env branch n ((q, d) :: tl)).1
          = (commit_file env branch n q).1 ++ (commit_files env branch n tl).1 := by
        rw [commit_files_cons, if_pos hok]
      rw [hstep, actionsFor_append]
      by_cases hpq : q = p
      · subst hpq
        rw [actionsFor_commit_file_self env branch n q hsk (hsha q)]
        have hout : q ∉ keysOf tl := by
          unfold keysOf; exact hnd0.1
        rw [actionsFor_commit_files_absent env branch q tl n hout, List.append_nil]
      · rw [actionsFor_commit_file_other env branch n q p hpq, List.nil_append]
        have hm' : (p, c) ∈ tl := by
          rcases List.mem_cons.mp hm with h | h
          · cases h; exact absurd rfl hpq
          · exact h
        exact ih n (by unfold keysOf; exact hnd0.2)
          (fun pc hpc => hput0 pc (by simp [hpc])) hm' hsk
  exact main files files.length hnd hput hmem hskip

/-- Witness for C1: a two-file set against a repository where `a.py`
already exists (read answers 200) and `b.py` does not (read answers 404):
`a.py` gets one read and one sha-bearing write, `b.py` one read and one
write with the token omitted. -/
theorem committer_write_per_path_witness :
    actionsFor (commit_files
        ⟨some "main", fun q => if q = "a.py" then 200 else 404,
         fun _ => "abc123", fun _ => 201⟩ "br" 2
        [("a.py", "x"), ("b.py", "y")]).1 "a.py"
      = [GhAction.getContents "a.py" "main" 200,
         GhAction.putContents "a.py" "br" (some "abc123") 201]
    ∧ actionsFor (commit_files
        ⟨some "main", fun q => if q = "a.py" then 200 else 404,
         fun _ => "abc123", fun _ => 201⟩ "br" 2
        [("a.py", "x"), ("b.py", "y")]).1 "b.py"
      = [GhAction.getContents "b.py" "main" 404,
         GhAction.putContents "b.py" "br" none 201] := by
  have hsha : ∀ q : String,
      (⟨some "main", fun q => if q = "a.py" then 200 else 404,
        fun _ => "abc123", fun _ => 201⟩ : PrEnv).contentsSha q ≠ "" := by
    intro q
    exact (by decide : ("abc123" : String) ≠ "")
  have hst : ∀ q : String,
      (⟨some "main", fun q => if q = "a.py" then 200 else 404,
        fun _ => "abc123", fun _ => 201⟩ : PrEnv).contentsStatus q = 200
      ∨ 400 ≤ (⟨some "main", fun q => if q = "a.py" then 200 else 404,
        fun _ => "abc123", fun _ => 201⟩ : PrEnv).contentsStatus q := by
    intro q
    by_cases h : q = "a.py"
    · subst h; exact Or.inl (by decide)
    · right
      show (400 : Nat) ≤ if q = "a.py" then 200 else 404
      rw [if_neg h]
      decide
  constructor
  · exact (committer_write_per_path _ "br" [("a.py", "x"), ("b.py", "y")]
      (by decide) (by decide) (by decide) hsha hst "a.py" "x"
      (by decide) (by decide)).trans (by decide)
  · exact (committer_write_per_path _ "br" [("a.py", "x"), ("b.py", "y")]
      (by decide) (by decide) (by decide) hsha hst "b.py" "y"
      (by decide) (by decide)).trans (by decide)

/-! ## Claim C2 -/

/-- Counterexample for C2 as stated: `docs/LICENSE` has lowercase final
segment `license` and co-occurs with a second file, yet the committer
writes it (one sha-less write issued), because the implemented guard
compares the whole lowercased path — not its final segment — against
`license`/`license.md`. -/
theorem committer_license_final_segment_ce :
    pyLower (lastSeg "docs/LICENSE") = "license"
    ∧ writeTokens (commit_files
        ⟨some "main", fun _ => 404, fun _ => "", fun _ => 201⟩ "b" 2
        [("docs/LICENSE", "x"), ("b.py", "y")]).1 "docs/LICENSE" = [none] := by
  exact ⟨by decide, by decide⟩

/-- Claim C2 (corrected): the license guard of the committer lowercases the
whole path: a file whose entire lowercased path is `license` or
`license.md` is never written when the file set has more than one entry,
and is written (exactly once) when it is the only file of the set; a path
like `docs/LICENSE`, whose final segment is `license` but which is not
equal to it, is not skipped. -/
theorem committer_license_skip_full_path (env : PrEnv) (branch : String)
    (files : List (String × String)) (p : String)
    (hlic : pyLower p = "license" ∨ pyLower p = "license.md") :
    (1 < files.length →
      writeTokens (commit_files env branch files.length files).1 p = [])
    ∧ (∀ c, files = [(p, c)] →
      (writeTokens (commit_files env branch files.length files).1 p).length = 1) := by
  constructor
  · intro hlen
    have hskip : skip_license p files.length = true := by
      unfold skip_license
      rcases hlic with h | h <;> simp [h, hlen]
    rw [writeTokens_eq_actionsFor,
      actionsFor_commit_files_skipped env branch files.length p hskip files]
    rfl
  · intro c hc
    subst hc
    simp only [List.length_singleton]
    have hskip : skip_license p 1 = false := by
      unfold skip_license; simp
    have hstep : (commit_files env branch 1 [(p, c)]).1
        = (commit_file env branch 1 p).1 := by
      unfold commit_files
      by_cases hr : (commit_file env branch 1 p).2 = true
      · simp [hr, commit_files]
      · simp only [Bool.not_eq_true] at hr
        simp [hr]
    rw [hstep]
    unfold commit_file
    simp [hskip, writeTokens]

/-- Witness for the corrected C2: with two files, `LICENSE` is never
written; alone, `LICENSE` is written once. -/
theorem committer_license_skip_full_path_witness :
    writeTokens (commit_files
        ⟨some "main", fun _ => 404, fun _ => "", fun _ => 201⟩ "b" 2
        [("LICENSE", "t"), ("b.py", "y")]).1 "LICENSE" = []
    ∧ (writeTokens (commit_files
        ⟨some "main", fun _ => 404, fun _ => "", fun _ => 201⟩ "b" 1
        [("LICENSE", "t")]).1 "LICENSE").length = 1 := by
  constructor
  · exact (committer_license_skip_full_path
      ⟨some "main", fun _ => 404, fun _ => "", fun _ => 201⟩ "b"
      [("LICENSE", "t"), ("b.py", "y")] "LICENSE" (by decide)).1 (by decide)
  · exact (committer_license_skip_full_path
      ⟨some "main", fun _ => 404, fun _ => "", fun _ => 201⟩ "b"
      [("LICENSE", "t")] "LICENSE" (by decide)).2 "t" (by decide)

/-! ## Claim C5 -/

/-- Counterexample for C5 as stated: the text
`repo: zz/zz repo: acme/widgets` contains the substring
`repo: acme/widgets`, yet resolution yields `zz/zz` — `re.search` takes
the leftmost match of the `repo:` pattern, not the matching occurrence the
claim singles out. -/
theorem resolve_repo_marker_ce :
    strContains ("repo: zz/zz repo: acme/widgets" ++ " " ++ "")
        "repo: acme/widgets" = true
    ∧ process_email_target_repo "repo: zz/zz repo: acme/widgets" ""
        "dev@hidrokultur.com" ⟨none⟩ = "zz/zz"
    ∧ "zz/zz" ≠ "acme/widgets" := by
  exact ⟨by decide, by decide, by decide⟩

/-- Claim C5 (corrected): the explicit-pattern scan takes precedence over
the sender and domain tables — whenever the scan of subject-plus-body
itself yields `acme/widgets` (its leftmost `repo:`-marker match captures
exactly that slug), the resolved repository is `acme/widgets` for every
sender; a mere substring occurrence of `repo: acme/widgets` is not enough,
since an earlier marker or a longer slug wins.  Absent any marker match, a
sender at domain `hidrokultur.com` resolves to the domain table's
`bO-05/mailforge-test-target` whatever the configured default. -/
theorem resolve_repo_order (subject body sender : String) (env : ProcEnv) :
    (extract_repo_from_email subject body = some "acme/widgets" →
      process_email_target_repo subject body sender env = "acme/widgets")
    ∧ (extract_repo_from_email subject body = none →
      pyEmailDomain sender = "hidrokultur.com" →
      process_email_target_repo subject body sender env
        = "bO-05/mailforge-test-target") := by
  constructor
  · intro h
    unfold process_email_target_repo
    rw [h]
  · intro h hdom
    unfold process_email_target_repo
    rw [h]
    have huser : get_repo_for_user sender = some "bO-05/mailforge-test-target" := by
      by_cases h1 : sender = "icarus@hidrokultur.com"
      · simp [get_repo_for_user, email_to_repo, lookupAssoc, h1]
      · by_cases h2 : sender = "pr-creator@hidrokultur.com"
        · simp [get_repo_for_user, email_to_repo, lookupAssoc, h1, h2]
        · by_cases h3 : sender = "dev@hidrokultur.com"
          · simp [get_repo_for_user, email_to_repo, lookupAssoc, h1, h2, h3]
          · simp [get_repo_for_user, email_to_repo, lookupAssoc, h1, h2, h3, hdom]
    rw [huser]
    rfl

/-- Witness for the corrected C5: an explicit `repo:` marker overrides a
foreign sender, and a markerless message from `hidrokultur.com` resolves
through the domain table even when a global default is configured. -/
theorem resolve_repo_order_witness :
    process_email_target_repo "repo: acme/widgets" "" "stranger@other.com"
        ⟨none⟩ = "acme/widgets"
    ∧ process_email_target_repo "just text" "no marker here"
        "someone@hidrokultur.com" ⟨some "cfg/repo"⟩
        = "bO-05/mailforge-test-target" := by
  constructor
  · exact (resolve_repo_order "repo: acme/widgets" "" "stranger@other.com"
      ⟨none⟩).1 (by decide)
  · exact (resolve_repo_order "just text" "no marker here"
      "someone@hidrokultur.com" ⟨some "cfg/repo"⟩).2 (by decide) (by decide)

/-! ## Claim C6 -/

/-- Counterexample for C6 as stated: with no explicit marker, no sender or
domain table match, and no configured `GITHUB_REPO`, resolution does not
fail — it proceeds with the hardcoded repository
`bO-05/mailforge-test-target`; no `NoTargetRepository` outcome exists in
the code. -/
theorem resolve_repo_fallback_ce :
    extract_repo_from_email "hello" "please fix" = none
    ∧ get_repo_for_user "x@nowhere.org" = none
    ∧ process_email_target_repo "hello" "please fix" "x@nowhere.org" ⟨none⟩
      = "bO-05/mailforge-test-target" := by
  exact ⟨by decide, by decide, by decide⟩

/-- Claim C6 (corrected): when the explicit-pattern scan, the sender table
and the domain table all fail and no `GITHUB_REPO` environment value is
set, resolution falls back to the hardcoded default repository
`bO-05/mailforge-test-target` and the pipeline proceeds; resolution never
fails and no `NoTargetRepository` error is ever reported. -/
theorem resolve_repo_hardcoded_default (subject body sender : String)
    (hpat : extract_repo_from_email subject body = none)
    (huser : get_repo_for_user sender = none) :
    process_email_target_repo subject body sender ⟨none⟩
      = "bO-05/mailforge-test-target" := by
  unfold process_email_target_repo
  rw [hpat, huser]
  rfl

/-- Witness for the corrected C6. -/
theorem resolve_repo_hardcoded_default_witness :
    process_email_target_repo "subject" "body text" "x@nowhere.org" ⟨none⟩
      = "bO-05/mailforge-test-target" :=
  resolve_repo_hardcoded_default "subject" "body text" "x@nowhere.org"
    (by decide) (by decide)

/-! ## Claim C9 -/

/-- Claim C9 (confirmed): notification sending is fire-and-forget — for
every outcome of the underlying email send (an exception from the HTTP
post, or, in the success notifier, an error status raised by
`raise_for_status`), neither `send_email_response` nor `send_error_email`
lets the failure escape: both return normally in all cases. -/
theorem notifier_never_raises (env1 env2 : MailEnv) :
    send_email_response env1 = Except.ok ()
    ∧ send_error_email env2 = Except.ok () := by
  constructor
  · unfold send_email_response
    cases send_email_response_body env1 <;> rfl
  · unfold send_error_email
    cases send_error_email_body env2 <;> rfl

/-! ## Claim C10 -/

/-- Counterexample for C10 as stated: a repository whose default branch is
`develop` but which also serves a ref named `main` answers the tree
request with a success status, and the gatherer returns a non-empty
context string — so a non-`main` default branch does not by itself make
the tree fetch fail. -/
theorem context_main_branch_ce :
    (⟨"develop", fun _ => 200, [], fun _ => 404, fun _ => 0, fun _ => none⟩
        : CtxEnv).default_branch ≠ "main"
    ∧ (⟨"develop", fun _ => 200, [], fun _ => 404, fun _ => 0, fun _ => none⟩
        : CtxEnv).treeStatus "main" = 200
    ∧ (get_repo_context
        ⟨"develop", fun _ => 200, [], fun _ => 404, fun _ => 0, fun _ => none⟩
        "o/r" "instruction").2 ≠ "" := by
  exact ⟨by decide, by decide, by decide⟩

/-- Claim C10 (corrected): the Context Gatherer requests the repository
tree from the literal ref `main` — its first issued request is
`GET git/trees/main` whatever the repository's default branch — and
whenever that request for `main` answers with a non-success status (in
particular for a repository serving no ref named `main`), gather returns
the empty context string instead of the repository's tree.  A repository
whose default branch is not `main` but which still has a `main` ref makes
the fetch succeed, against the claim. -/
theorem context_literal_main (env : CtxEnv) (repo instruction : String) :
    (get_repo_context env repo instruction).1.head?
      = some (CtxAction.getTree "main")
    ∧ (env.treeStatus "main" ≠ 200 →
      (get_repo_context env repo instruction).2 = "") := by
  unfold get_repo_context
  by_cases h : env.treeStatus "main" = 200
  · simp only [h, ne_eq, not_true_eq_false, if_false]
    constructor
    · by_cases hrel : (relevant_files env instruction).isEmpty = true <;>
        simp [hrel]
    · exact fun hco => hco.elim
  · simp [h]

/-- Witness for the corrected C10: a repository with no `main` ref yields
the empty context. -/
theorem context_literal_main_witness :
    (get_repo_context
        ⟨"develop", fun _ => 404, [], fun _ => 404, fun _ => 0, fun _ => none⟩
        "o/r" "instruction").2 = "" :=
  (context_literal_main
    ⟨"develop", fun _ => 404, [], fun _ => 404, fun _ => 0, fun _ => none⟩
    "o/r" "instruction").2 (by decide)
